import Mathlib

/-!
Verification of the subtitle-chunking pipeline of `ExtractorVideos.py`
(YouTube question-answering extension backend).

Modelling conventions for the shallow embedding:
* Python `str` is modelled as `List Char` (a sequence of code points),
  written via `".. ".data` for literals.
* Python `float` time values are modelled as `ℚ`; all arithmetic used by
  the program (addition, subtraction, comparison, multiplication by 1000)
  is exact on the values appearing in the claims.
* Python `int` is modelled as `ℤ`; `divmod` is floor division, `int()` on a
  float truncates toward zero.
* Fallible paths are modelled with explicit result types.
-/

namespace ExtractorVideos

/-- Python `str` as a list of code points. -/
abbrev PyStr := List Char

/-- A raw caption cue `{"start": float, "end": float, "text": str}`. -/
structure Cue where
  start : ℚ
  «end» : ℚ
  text : PyStr
  deriving DecidableEq, Repr, Inhabited

/-- An output chunk `{"ts_range": str, "text": str}`. -/
structure ChunkOut where
  ts_range : PyStr
  text : PyStr
  deriving DecidableEq, Repr, Inhabited

/-- Python `int(x)` on a rational: truncation toward zero. -/
def py_int (q : ℚ) : ℤ :=
  if q < 0 then ⌈q⌉ else ⌊q⌋

/-- Decimal digits of a natural number (Python `str(n)` for `n ≥ 0`). -/
def natStr (n : ℕ) : PyStr :=
  Nat.toDigits 10 n

/-- Python format spec `{n:0wd}`: decimal rendering of an integer,
zero-padded on the left (after the sign) to width `w`. -/
def fmtZeroPad (w : ℕ) (n : ℤ) : PyStr :=
  if n < 0 then
    '-' :: List.replicate (w - 1 - (natStr n.natAbs).length) '0' ++ natStr n.natAbs
  else
    List.replicate (w - (natStr n.toNat).length) '0' ++ natStr n.toNat

/-- The integer part of `seconds_to_timestamp`, from `total_ms` on: the two
`divmod`s (Python `divmod` is floor division) split hours / minutes /
seconds / milliseconds, rendered as `f"{h:02d}:{m:02d}:{s:02d}.{ms:03d}"`. -/
def msToTimestamp (total_ms : ℤ) : PyStr :=
  let h := total_ms.fdiv 3600000
  let rem := total_ms.fmod 3600000
  let m := rem.fdiv 60000
  let rem2 := rem.fmod 60000
  let s := rem2.fdiv 1000
  let ms := rem2.fmod 1000
  fmtZeroPad 2 h ++ ':' :: fmtZeroPad 2 m ++ ':' :: fmtZeroPad 2 s ++
    '.' :: fmtZeroPad 3 ms

/-- Source `seconds_to_timestamp(sec)`: `total_ms = int(sec * 1000)`, then the
`divmod` cascade and formatting of `msToTimestamp`. -/
def seconds_to_timestamp (sec : ℚ) : PyStr :=
  msToTimestamp (py_int (sec * 1000))

/-- The f-string `f"[{seconds_to_timestamp(ch['start'])}–{seconds_to_timestamp(ch['end'])}]"`. -/
def tsRange (a b : ℚ) : PyStr :=
  '[' :: seconds_to_timestamp a ++ '–' :: seconds_to_timestamp b ++ [']']

/-- The merge/close decision of `parse_segments`:
`dur > max_seconds or length > max_chars` with
`dur = seg["end"] - curr["start"]` and
`length = len(curr["text"]) + 1 + len(seg["text"])`. -/
def splitCond (max_seconds max_chars : ℤ) (curr seg : Cue) : Prop :=
  seg.«end» - curr.start > (max_seconds : ℚ) ∨
    (curr.text.length : ℤ) + 1 + (seg.text.length : ℤ) > max_chars

instance (ms mc : ℤ) (curr seg : Cue) : Decidable (splitCond ms mc curr seg) := by
  unfold splitCond; infer_instance

/-- The merged cue produced by the `else` branch:
`curr["end"] = seg["end"]; curr["text"] += " " + seg["text"]`. -/
def mergeStep (curr seg : Cue) : Cue :=
  { start := curr.start, «end» := seg.«end», text := curr.text ++ ' ' :: seg.text }

/-- The main loop of `parse_segments` from the state where `curr` is the
accumulator and the remaining cues are the list argument; returns the final
`chunks` list (the trailing `if curr: chunks.append(curr)` included). -/
def mergeLoop (ms mc : ℤ) : Cue → List Cue → List Cue
  | curr, [] => [curr]
  | curr, seg :: rest =>
    if splitCond ms mc curr seg then
      curr :: mergeLoop ms mc seg rest
    else
      mergeLoop ms mc (mergeStep curr seg) rest

/-- The first loop of `parse_segments`: groups raw cues into the `chunks`
list (`curr` starts as `None` and becomes a copy of the first cue). -/
def mergeCues (ms mc : ℤ) : List Cue → List Cue
  | [] => []
  | c :: rest => mergeLoop ms mc c rest

/-- The second loop of `parse_segments`: formats one chunk. -/
def renderChunk (ch : Cue) : ChunkOut :=
  { ts_range := tsRange ch.start ch.«end», text := ch.text }

/-- Source `parse_segments(raw, max_seconds, max_chars)`. -/
def parse_segments (raw : List Cue) (max_seconds max_chars : ℤ) : List ChunkOut :=
  (mergeCues max_seconds max_chars raw).map renderChunk

/-! ### Python string helpers -/

/-- Python whitespace test used by `str.strip()` (ASCII whitespace; the
texts handled by this program never contain the rarer Unicode spaces). -/
def pyIsSpace (c : Char) : Bool :=
  c == ' ' || c == '\t' || c == '\n' || c == '\r' || c == '\x0b' || c == '\x0c'

/-- Python `str.strip()`: remove leading and trailing whitespace. -/
def pyStrip (s : PyStr) : PyStr :=
  ((s.dropWhile pyIsSpace).reverse.dropWhile pyIsSpace).reverse

/-! ### `extract_video_id`: the regex `(?:v=|be/)([\w-]{11})` -/

/-- A character matched by the regex class `[\w-]` (word characters are
modelled as ASCII alphanumerics plus underscore). -/
def isTokenChar (c : Char) : Bool :=
  c.isAlphanum || c == '_' || c == '-'

/-- Attempt to match `(?:v=|be/)([\w-]{11})` anchored at the start of `s`,
trying the alternative `v=` first, returning the captured group. -/
def matchAt (s : PyStr) : Option PyStr :=
  if s.take 2 = "v=".data ∧ 11 ≤ (s.drop 2).length ∧
      ∀ c ∈ (s.drop 2).take 11, isTokenChar c then
    some ((s.drop 2).take 11)
  else if s.take 3 = "be/".data ∧ 11 ≤ (s.drop 3).length ∧
      ∀ c ∈ (s.drop 3).take 11, isTokenChar c then
    some ((s.drop 3).take 11)
  else
    none

/-- Source `re.search`: try the pattern at every position, leftmost first. -/
def reSearch : PyStr → Option PyStr
  | [] => none
  | c :: rest =>
    match matchAt (c :: rest) with
    | some tok => some tok
    | none => reSearch rest

/-- Source `extract_video_id(arg)`: the captured group of the first match, or the
argument unchanged when the pattern does not occur. -/
def extract_video_id (arg : PyStr) : PyStr :=
  match reSearch arg with
  | some tok => tok
  | none => arg

/-! ### Primary source error dispatch (`get_timestamped_chunks`) -/

/-- One element of the list returned by
`YouTubeTranscriptApi.get_transcript`: `{"start", "duration", "text"}`. -/
structure TranscriptItem where
  start : ℚ
  duration : ℚ
  text : PyStr
  deriving DecidableEq, Repr

/-- Outcome of the `YouTubeTranscriptApi.get_transcript` call: a cue list,
or one of the typed exceptions distinguished by the `except` clauses. -/
inductive PrimaryResult where
  | success (raw : List TranscriptItem)
  | transcriptsDisabled
  | noTranscriptFound
  | videoUnavailable
  | otherError
  deriving DecidableEq, Repr

/-- The user-facing `RuntimeError`s raised by `get_timestamped_chunks`. -/
inductive PipelineError where
  | subtitlesUnavailable
  | videoUnavailable
  deriving DecidableEq, Repr

/-- Source `get_timestamped_chunks`, as a function of the primary-source outcome
and of the result the fallback (`get_timestamped_chunks_yt_dlp`) would
produce: the `try` body converts each `{start, duration, text}` into a raw
cue via `end = start + duration` with stripped text and chunks it with the
default thresholds; `TranscriptsDisabled`/`NoTranscriptFound` raise the
subtitles-unavailable error, `VideoUnavailable` raises the
video-unavailable error, and any other exception runs the fallback. -/
def get_timestamped_chunks (primary : PrimaryResult)
    (fallback : Except PipelineError (List ChunkOut)) :
    Except PipelineError (List ChunkOut) :=
  match primary with
  | .success raw =>
    .ok (parse_segments
      (raw.map fun s => ⟨s.start, s.start + s.duration, pyStrip s.text⟩) 30 500)
  | .transcriptsDisabled => .error .subtitlesUnavailable
  | .noTranscriptFound => .error .subtitlesUnavailable
  | .videoUnavailable => .error .videoUnavailable
  | .otherError => fallback

/-! ### Fallback subtitle selection (`get_timestamped_chunks_yt_dlp`) -/

/-- A value of the per-language subtitle mapping: either a dict (with an
optional `"url"` key) or a list of such dicts. -/
inductive SubEntry where
  | dict (url : Option PyStr)
  | formats (entries : List (Option PyStr))
  deriving DecidableEq, Repr

/-- A language → entry mapping (`requested_subtitles` etc.). -/
abbrev SubsDict := List (PyStr × SubEntry)

/-- The metadata object returned by `ydl.extract_info`: the three nested
mappings consulted by the URL selection. -/
structure YdlInfo where
  requested_subtitles : Option SubsDict
  automatic_captions : Option SubsDict
  subtitles : Option SubsDict
  deriving DecidableEq, Repr

/-- Python `a or b` for an optional dict: `None` and `{}` are falsy. -/
def orDict : Option SubsDict → SubsDict → SubsDict
  | some d, alt => if d = [] then alt else d
  | none, alt => alt

/-- Source `info.get("requested_subtitles") or info.get("automatic_captions") or
info.get("subtitles") or {}`. -/
def selectSubsDict (info : YdlInfo) : SubsDict :=
  orDict info.requested_subtitles
    (orDict info.automatic_captions (orDict info.subtitles []))

/-- Python `lang in subs` / `subs[lang]` on the modelled dict. -/
def lookupLang (subs : SubsDict) (lang : PyStr) : Option SubEntry :=
  (subs.find? fun p => p.1 == lang).map Prod.snd

/-- Result of the URL resolution: a URL, the
`RuntimeError("No hay subtítulos VTT disponibles en yt-dlp")` raised when
`not vtt_url`, or the `IndexError` from `entry[0]` on an empty list. -/
inductive VttResult where
  | ok (url : PyStr)
  | noSubtitles
  | indexError
  deriving DecidableEq, Repr

/-- The final `if not vtt_url: raise ...` check: a `vtt_url` that is `None`
or `""` is falsy. -/
def urlCheck : Option PyStr → VttResult
  | none => .noSubtitles
  | some [] => .noSubtitles
  | some u => .ok u

/-- Source `entry = subs[lang]; if isinstance(entry, list): entry = entry[0];
vtt_url = entry.get("url")`, followed by the `not vtt_url` check (the
`for` loop `break`s right after this, so no later language is tried). -/
def resolveEntry : SubEntry → VttResult
  | .dict url => urlCheck url
  | .formats [] => .indexError
  | .formats (f :: _) => urlCheck f

/-- Source `for lang in languages: if lang in subs: ...; break` followed by
`if not vtt_url: raise`. -/
def findVttUrl (subs : SubsDict) : List PyStr → VttResult
  | [] => .noSubtitles
  | lang :: rest =>
    match lookupLang subs lang with
    | some entry => resolveEntry entry
    | none => findVttUrl subs rest

/-- The subtitle-URL selection portion of `get_timestamped_chunks_yt_dlp`,
as a function of the metadata object. -/
def resolveVtt (info : YdlInfo) (languages : List PyStr) : VttResult :=
  findVttUrl (selectSubsDict info) languages

/-! ### Prompt builder (`build_qa_prompt`) -/

/-- The fixed template text before the chunk lines, ending with the
newline that precedes `{lines}` (the template's own leading newline is
written separately below so that the `strip()` reasoning can peel it). -/
def qaHeader : PyStr :=
  ("Vas a recibir la transcripción segmentada de un vídeo de YouTube, " ++
   "en bloques de texto con su intervalo de tiempo:\n").data

/-- The fixed template text between `{lines}` and `{question}`. -/
def qaMiddle : PyStr :=
  ("\n\nA continuación, un usuario hará una pregunta concreta sobre el " ++
   "contenido del vídeo.\nTu tarea es:\n" ++
   "  • Leer los bloques con sus timestamps.\n" ++
   "  • Identificar las partes relevantes.\n" ++
   "  • Responder con claridad, precisión y de forma simple, citando los " ++
   "timestamps cuando aporte valor.\n" ++
   "  • En caso de citar un timestamp hazlo refiriéndote al minuto y " ++
   "segundo por ejemplo \"en el minuto 7 segundo 24 se menciona que..\".\n" ++
   "Pregunta del usuario:\n").data

/-- The fixed template text after `{question}`. -/
def qaFooter : PyStr := "\n\nRespuesta:\n".data

/-- Source `"\n".join(f"{c['ts_range']} {c['text']}" for c in chunks)`. -/
def qaLines (chunks : List ChunkOut) : PyStr :=
  List.intercalate ['\n'] (chunks.map fun c => c.ts_range ++ ' ' :: c.text)

/-- Source `build_qa_prompt(chunks, question)`: the triple-quoted f-string
(leading newline, header, lines, middle, question, footer) passed through
`.strip()`. -/
def build_qa_prompt (chunks : List ChunkOut) (question : PyStr) : PyStr :=
  pyStrip ('\n' :: qaHeader ++ qaLines chunks ++ qaMiddle ++ question ++ qaFooter)

/-! ### Heap model of `parse_segments` for the frame property -/

/-- A heap of cue dictionaries; an address is an index, allocation
appends. -/
abbrev Heap := List Cue

/-- Dereference an address. -/
def readCell (h : Heap) (i : ℕ) : Cue :=
  h.getD i default

/-- The loop of `parse_segments` with the dictionaries kept behind
references: the input is a list of addresses, `seg.copy()` allocates a
fresh cell, and the merge branch writes through the accumulator's
reference only. -/
def segLoopH (ms mc : ℤ) :
    List ℕ → Heap → List ℕ → Option ℕ → Heap × List ℕ × Option ℕ
  | [], heap, chunks, curr => (heap, chunks, curr)
  | i :: rest, heap, chunks, none =>
    segLoopH ms mc rest (heap ++ [readCell heap i]) chunks (some heap.length)
  | i :: rest, heap, chunks, some j =>
    if splitCond ms mc (readCell heap j) (readCell heap i) then
      segLoopH ms mc rest (heap ++ [readCell heap i]) (chunks ++ [j]) (some heap.length)
    else
      segLoopH ms mc rest (heap.set j (mergeStep (readCell heap j) (readCell heap i)))
        chunks (some j)

/-- Run the heap-level loop on an input list laid out as the initial
heap, its cells addressed in order. -/
def parse_segments_heap (ms mc : ℤ) (input : List Cue) :
    Heap × List ℕ × Option ℕ :=
  segLoopH ms mc (List.range input.length) input [] none

/-- The chunk values of a final state: the collected references, plus the
accumulator when one remains, dereferenced in the final heap. -/
def heapChunks : Heap × List ℕ × Option ℕ → List Cue
  | (heap, chunks, curr) =>
    (chunks ++ (match curr with | some j => [j] | none => [])).map (readCell heap)

/-! ### Ghost grouping of the chunking loop (for the partition property) -/

/-- Collapse a non-empty run of cues into the accumulator value the loop
would carry after merging them all: the first cue's start, the last cue's
end, the space-joined text. -/
def collapseRun (c : Cue) (cs : List Cue) : Cue :=
  cs.foldl mergeStep c

/-- Ghost version of `mergeLoop` keeping each chunk's constituent cues
(first cue, later cues) instead of the collapsed accumulator. -/
def runsLoop (ms mc : ℤ) : Cue → List Cue → List Cue → List (Cue × List Cue)
  | first, acc, [] => [(first, acc)]
  | first, acc, seg :: rest =>
    if splitCond ms mc (collapseRun first acc) seg then
      (first, acc) :: runsLoop ms mc seg [] rest
    else
      runsLoop ms mc first (acc ++ [seg]) rest

/-- Ghost version of `mergeCues`: the runs of consecutive input cues that
make up each chunk. -/
def cueRuns (ms mc : ℤ) : List Cue → List (Cue × List Cue)
  | [] => []
  | c :: rest => runsLoop ms mc c [] rest

/-! ### Evaluation lemmas for the chunking loop -/

theorem mergeLoop_nil (ms mc : ℤ) (curr : Cue) :
    mergeLoop ms mc curr [] = [curr] := rfl

theorem mergeLoop_cons_split {ms mc : ℤ} {curr seg : Cue} (rest : List Cue)
    (h : splitCond ms mc curr seg) :
    mergeLoop ms mc curr (seg :: rest) = curr :: mergeLoop ms mc seg rest := by
  rw [mergeLoop, if_pos h]

theorem mergeLoop_cons_merge {ms mc : ℤ} {curr seg : Cue} (rest : List Cue)
    (h : ¬ splitCond ms mc curr seg) :
    mergeLoop ms mc curr (seg :: rest) =
      mergeLoop ms mc (mergeStep curr seg) rest := by
  rw [mergeLoop, if_neg h]

theorem seconds_to_timestamp_eq {q : ℚ} {n : ℤ} (h : py_int (q * 1000) = n) :
    seconds_to_timestamp q = msToTimestamp n := by
  rw [seconds_to_timestamp, h]

/-! ### Claim theorems -/

/-- Claim C1: `parse_segments` decides whether to merge the next cue `seg`
into the current chunk by computing the candidate duration
`seg.end - current.start` (from the chunk's original start) and the
candidate length `len(current.text) + 1 + len(seg.text)`; it closes the
chunk exactly when candidate duration exceeds `max_seconds` or candidate
length exceeds `max_chars`, and otherwise merges by extending the chunk's
end to `seg.end` and appending a space plus `seg.text`. In particular, for
cues `(0,10), (10,25), (25,32)` and `max_seconds = 30`, the third cue
starts a new chunk. -/
theorem c1_merge_decision :
    (∀ (ms mc : ℤ) (curr seg : Cue) (rest : List Cue),
        seg.«end» - curr.start > (ms : ℚ) ∨
          (curr.text.length : ℤ) + 1 + (seg.text.length : ℤ) > mc →
        mergeLoop ms mc curr (seg :: rest) = curr :: mergeLoop ms mc seg rest) ∧
    (∀ (ms mc : ℤ) (curr seg : Cue) (rest : List Cue),
        ¬(seg.«end» - curr.start > (ms : ℚ) ∨
          (curr.text.length : ℤ) + 1 + (seg.text.length : ℤ) > mc) →
        mergeLoop ms mc curr (seg :: rest) =
          mergeLoop ms mc ⟨curr.start, seg.«end», curr.text ++ ' ' :: seg.text⟩ rest) ∧
    parse_segments [⟨0, 10, "a".data⟩, ⟨10, 25, "b".data⟩, ⟨25, 32, "c".data⟩] 30 500 =
      [⟨"[00:00:00.000–00:00:25.000]".data, "a b".data⟩,
       ⟨"[00:00:25.000–00:00:32.000]".data, "c".data⟩] := by
  refine ⟨fun ms mc curr seg rest h => mergeLoop_cons_split rest h,
    fun ms mc curr seg rest h => mergeLoop_cons_merge rest h, ?_⟩
  rw [parse_segments, mergeCues,
    mergeLoop_cons_merge _ (by norm_num [splitCond]),
    mergeLoop_cons_split _ (by norm_num [splitCond, mergeStep]),
    mergeLoop_nil]
  simp only [List.map, renderChunk, mergeStep, tsRange,
    seconds_to_timestamp_eq (show py_int ((0:ℚ) * 1000) = 0 by norm_num [py_int]),
    seconds_to_timestamp_eq (show py_int ((25:ℚ) * 1000) = 25000 by norm_num [py_int]),
    seconds_to_timestamp_eq (show py_int ((32:ℚ) * 1000) = 32000 by norm_num [py_int])]
  decide

/-- Witness for C1: the split branch taken at a concrete state where the
candidate span `32 - 0` exceeds `max_seconds = 30`. -/
theorem c1_merge_decision_witness :
    ((32 : ℚ) - (Cue.mk 0 25 "a b".data).start > ((30 : ℤ) : ℚ) ∨
      ((Cue.mk 0 25 "a b".data).text.length : ℤ) + 1 + (("c".data : PyStr).length : ℤ) > 500) ∧
    mergeLoop 30 500 ⟨0, 25, "a b".data⟩ [⟨25, 32, "c".data⟩] =
      ⟨0, 25, "a b".data⟩ :: mergeLoop 30 500 ⟨25, 32, "c".data⟩ [] :=
  ⟨by norm_num, c1_merge_decision.1 30 500 ⟨0, 25, "a b".data⟩ ⟨25, 32, "c".data⟩ []
    (by norm_num)⟩

/-- Claim C3: the end-to-end chunking scenario: cues
`(0,5,"Hola"), (5,9,"mundo"), (40,45,"adios")` with `max_seconds = 30`,
`max_chars = 500` produce exactly the two chunks
`("[00:00:00.000–00:00:09.000]", "Hola mundo")` and
`("[00:00:40.000–00:00:45.000]", "adios")`. -/
theorem c3_end_to_end :
    parse_segments
      [⟨0, 5, "Hola".data⟩, ⟨5, 9, "mundo".data⟩, ⟨40, 45, "adios".data⟩] 30 500 =
    [⟨"[00:00:00.000–00:00:09.000]".data, "Hola mundo".data⟩,
     ⟨"[00:00:40.000–00:00:45.000]".data, "adios".data⟩] := by
  rw [parse_segments, mergeCues,
    mergeLoop_cons_merge _ (by norm_num [splitCond]),
    mergeLoop_cons_split _ (by norm_num [splitCond, mergeStep]),
    mergeLoop_nil]
  simp only [List.map, renderChunk, mergeStep, tsRange,
    seconds_to_timestamp_eq (show py_int ((0:ℚ) * 1000) = 0 by norm_num [py_int]),
    seconds_to_timestamp_eq (show py_int ((9:ℚ) * 1000) = 9000 by norm_num [py_int]),
    seconds_to_timestamp_eq (show py_int ((40:ℚ) * 1000) = 40000 by norm_num [py_int]),
    seconds_to_timestamp_eq (show py_int ((45:ℚ) * 1000) = 45000 by norm_num [py_int])]
  decide

/-- Claim C5: `get_timestamped_chunks` maps "transcripts disabled" and "no
transcript found" to the subtitles-unavailable error and "video
unavailable" to the video-unavailable error, in all three cases without
invoking the fallback (the result is the same whatever the fallback would
return); any other primary-source error yields exactly the fallback's
result. -/
theorem c5_error_dispatch :
    ∀ fb : Except PipelineError (List ChunkOut),
      get_timestamped_chunks .transcriptsDisabled fb =
        .error .subtitlesUnavailable ∧
      get_timestamped_chunks .noTranscriptFound fb =
        .error .subtitlesUnavailable ∧
      get_timestamped_chunks .videoUnavailable fb = .error .videoUnavailable ∧
      get_timestamped_chunks .otherError fb = fb :=
  fun _ => ⟨rfl, rfl, rfl, rfl⟩

/-- Claim C7: `parse_segments` on the empty cue list returns the empty chunk
list, and a single cue whose own span exceeds `max_seconds` or whose text
alone exceeds `max_chars` is still emitted as exactly one chunk carrying
that cue's range and text unmodified. -/
theorem c7_empty_and_single :
    (∀ ms mc : ℤ, parse_segments [] ms mc = []) ∧
    (∀ (ms mc : ℤ) (c : Cue),
        c.«end» - c.start > (ms : ℚ) ∨ (c.text.length : ℤ) > mc →
        parse_segments [c] ms mc = [⟨tsRange c.start c.«end», c.text⟩]) :=
  ⟨fun _ _ => rfl, fun _ _ _ _ => rfl⟩

/-- Witness for C7: a single cue of span 45 s with `max_seconds = 30`. -/
theorem c7_empty_and_single_witness :
    ((45 : ℚ) - (0 : ℚ) > ((30 : ℤ) : ℚ) ∨ (("x".data : PyStr).length : ℤ) > 500) ∧
    parse_segments [⟨0, 45, "x".data⟩] 30 500 =
      [⟨tsRange (0 : ℚ) (45 : ℚ), "x".data⟩] :=
  ⟨by norm_num, c7_empty_and_single.2 30 500 ⟨0, 45, "x".data⟩ (by norm_num)⟩

/-! ### Timestamp formatting (C6) -/

theorem fmtZeroPad_two_length : ∀ n : ℕ, n < 100 → (fmtZeroPad 2 (n : ℤ)).length = 2 := by
  decide

set_option maxRecDepth 8000 in
theorem fmtZeroPad_three_length : ∀ n : ℕ, n < 1000 → (fmtZeroPad 3 (n : ℤ)).length = 3 := by
  decide

theorem fmtZeroPad_length_of_nonneg_lt {m : ℤ} (h0 : 0 ≤ m) (h : m < 60) :
    (fmtZeroPad 2 m).length = 2 := by
  have h2 := fmtZeroPad_two_length m.toNat (by omega)
  rwa [Int.toNat_of_nonneg h0] at h2

theorem fmtZeroPad_length_of_nonneg_lt' {m : ℤ} (h0 : 0 ≤ m) (h : m < 1000) :
    (fmtZeroPad 3 m).length = 3 := by
  have h3 := fmtZeroPad_three_length m.toNat (by omega)
  rwa [Int.toNat_of_nonneg h0] at h3

/-- Claim C6: for every non-negative seconds value, `seconds_to_timestamp`
renders `hours:minutes:seconds.milliseconds` with minutes and seconds in
`[0,60)` zero-padded to two digits, milliseconds in `[0,1000)` zero-padded
to three digits, and the four fields recover the input truncated (not
rounded) to whole milliseconds; in particular
`seconds_to_timestamp(3725.250) = "01:02:05.250"`. -/
theorem c6_seconds_to_timestamp_format :
    (∀ sec : ℚ, 0 ≤ sec →
      ∃ h m s ms : ℤ, 0 ≤ h ∧ 0 ≤ m ∧ m < 60 ∧ 0 ≤ s ∧ s < 60 ∧
        0 ≤ ms ∧ ms < 1000 ∧
        (fmtZeroPad 2 m).length = 2 ∧ (fmtZeroPad 2 s).length = 2 ∧
        (fmtZeroPad 3 ms).length = 3 ∧
        ((h * 3600000 + m * 60000 + s * 1000 + ms : ℤ) : ℚ) ≤ sec * 1000 ∧
        sec * 1000 < ((h * 3600000 + m * 60000 + s * 1000 + ms : ℤ) : ℚ) + 1 ∧
        seconds_to_timestamp sec =
          fmtZeroPad 2 h ++ ':' :: fmtZeroPad 2 m ++ ':' :: fmtZeroPad 2 s ++
            '.' :: fmtZeroPad 3 ms) ∧
    seconds_to_timestamp (3725.25 : ℚ) = "01:02:05.250".data := by
  constructor
  · intro sec hsec
    have h1000 : (0 : ℚ) ≤ sec * 1000 := mul_nonneg hsec (by norm_num)
    have hpy : py_int (sec * 1000) = ⌊sec * 1000⌋ := by
      rw [py_int, if_neg (not_lt.mpr h1000)]
    set T : ℤ := ⌊sec * 1000⌋ with hTdef
    have hT0 : 0 ≤ T := Int.floor_nonneg.mpr h1000
    have e1 : T.fdiv 3600000 = T / 3600000 := Int.fdiv_eq_ediv T (by norm_num)
    have e2 : T.fmod 3600000 = T % 3600000 := Int.fmod_eq_emod T (by norm_num)
    set R : ℤ := T % 3600000 with hRdef
    have e3 : R.fdiv 60000 = R / 60000 := Int.fdiv_eq_ediv R (by norm_num)
    have e4 : R.fmod 60000 = R % 60000 := Int.fmod_eq_emod R (by norm_num)
    set R2 : ℤ := R % 60000 with hR2def
    have e5 : R2.fdiv 1000 = R2 / 1000 := Int.fdiv_eq_ediv R2 (by norm_num)
    have e6 : R2.fmod 1000 = R2 % 1000 := Int.fmod_eq_emod R2 (by norm_num)
    have hR0 : 0 ≤ R := Int.emod_nonneg T (by norm_num)
    have hRlt : R < 3600000 := Int.emod_lt_of_pos T (by norm_num)
    have hR20 : 0 ≤ R2 := Int.emod_nonneg R (by norm_num)
    have hR2lt : R2 < 60000 := Int.emod_lt_of_pos R (by norm_num)
    have hh0 : 0 ≤ T / 3600000 := Int.ediv_nonneg hT0 (by norm_num)
    have hm0 : 0 ≤ R / 60000 := Int.ediv_nonneg hR0 (by norm_num)
    have hmlt : R / 60000 < 60 :=
      Int.ediv_lt_of_lt_mul (by norm_num) (by linarith)
    have hs0 : 0 ≤ R2 / 1000 := Int.ediv_nonneg hR20 (by norm_num)
    have hslt : R2 / 1000 < 60 :=
      Int.ediv_lt_of_lt_mul (by norm_num) (by linarith)
    have hms0 : 0 ≤ R2 % 1000 := Int.emod_nonneg R2 (by norm_num)
    have hmslt : R2 % 1000 < 1000 := Int.emod_lt_of_pos R2 (by norm_num)
    have d1 : 3600000 * (T / 3600000) + R = T := Int.ediv_add_emod T 3600000
    have d2 : 60000 * (R / 60000) + R2 = R := Int.ediv_add_emod R 60000
    have d3 : 1000 * (R2 / 1000) + R2 % 1000 = R2 := Int.ediv_add_emod R2 1000
    have hsum : (T / 3600000) * 3600000 + (R / 60000) * 60000 +
        (R2 / 1000) * 1000 + R2 % 1000 = T := by linarith
    refine ⟨T / 3600000, R / 60000, R2 / 1000, R2 % 1000,
      hh0, hm0, hmlt, hs0, hslt, hms0, hmslt,
      fmtZeroPad_length_of_nonneg_lt hm0 hmlt,
      fmtZeroPad_length_of_nonneg_lt hs0 hslt,
      fmtZeroPad_length_of_nonneg_lt' hms0 hmslt, ?_, ?_, ?_⟩
    · rw [hsum]
      exact Int.floor_le (sec * 1000)
    · rw [hsum]
      exact Int.lt_floor_add_one (sec * 1000)
    · rw [seconds_to_timestamp, hpy]
      simp only [msToTimestamp]
      rw [e1, e2, e3, e4, e5, e6]
  · rw [seconds_to_timestamp_eq (show py_int ((3725.25 : ℚ) * 1000) = 3725250 by
      norm_num [py_int])]
    decide

/-- Witness for C6: the general format statement instantiated at
`sec = 3725.25`. -/
theorem c6_seconds_to_timestamp_format_witness :
    (0 : ℚ) ≤ 3725.25 ∧
    ∃ h m s ms : ℤ, 0 ≤ h ∧ 0 ≤ m ∧ m < 60 ∧ 0 ≤ s ∧ s < 60 ∧
      0 ≤ ms ∧ ms < 1000 ∧
      (fmtZeroPad 2 m).length = 2 ∧ (fmtZeroPad 2 s).length = 2 ∧
      (fmtZeroPad 3 ms).length = 3 ∧
      ((h * 3600000 + m * 60000 + s * 1000 + ms : ℤ) : ℚ) ≤ (3725.25 : ℚ) * 1000 ∧
      (3725.25 : ℚ) * 1000 < ((h * 3600000 + m * 60000 + s * 1000 + ms : ℤ) : ℚ) + 1 ∧
      seconds_to_timestamp (3725.25 : ℚ) =
        fmtZeroPad 2 h ++ ':' :: fmtZeroPad 2 m ++ ':' :: fmtZeroPad 2 s ++
          '.' :: fmtZeroPad 3 ms :=
  ⟨by norm_num, c6_seconds_to_timestamp_format.1 3725.25 (by norm_num)⟩

/-! ### Video-id extraction (C10) -/

theorem matchAt_token {s t : PyStr} (h : matchAt s = some t) :
    t.length = 11 ∧ ∀ c ∈ t, isTokenChar c := by
  unfold matchAt at h
  split_ifs at h with h1 h2
  · obtain ⟨-, hlen, htok⟩ := h1
    cases h
    exact ⟨by simpa [List.length_take] using hlen, htok⟩
  · obtain ⟨-, hlen, htok⟩ := h2
    cases h
    exact ⟨by simpa [List.length_take] using hlen, htok⟩

theorem reSearch_token {s t : PyStr} (h : reSearch s = some t) :
    t.length = 11 ∧ ∀ c ∈ t, isTokenChar c := by
  induction s with
  | nil => simp [reSearch] at h
  | cons c rest ih =>
    rw [reSearch] at h
    cases hm : matchAt (c :: rest) with
    | some tok =>
      rw [hm] at h
      cases h
      exact matchAt_token hm
    | none =>
      rw [hm] at h
      exact ih h

theorem matchAt_none {s : PyStr} (h : ∀ c ∈ s, c ≠ '=' ∧ c ≠ '/') :
    matchAt s = none := by
  unfold matchAt
  rw [if_neg, if_neg]
  · rintro ⟨heq, -, -⟩
    have hmem : '/' ∈ s.take 3 := by rw [heq]; decide
    exact (h '/' (List.take_subset 3 s hmem)).2 rfl
  · rintro ⟨heq, -, -⟩
    have hmem : '=' ∈ s.take 2 := by rw [heq]; decide
    exact (h '=' (List.take_subset 2 s hmem)).1 rfl

theorem reSearch_none {s : PyStr} (h : ∀ c ∈ s, c ≠ '=' ∧ c ≠ '/') :
    reSearch s = none := by
  induction s with
  | nil => rfl
  | cons c rest ih =>
    rw [reSearch, matchAt_none h]
    exact ih fun x hx => h x (List.mem_cons_of_mem c hx)

theorem isTokenChar_ne {c : Char} (h : isTokenChar c = true) :
    c ≠ '=' ∧ c ≠ '/' := by
  constructor <;> rintro rfl <;> exact absurd h (by decide)

/-- Claim C10: `extract_video_id` is total — it returns the captured
11-character token of the first `v=`/`be/` match, or the input unchanged
when the pattern does not occur — and it is idempotent: a captured token
consists of word-characters-or-hyphens only, hence contains neither `=`
nor `/`, so running the extraction on its own result changes nothing. -/
theorem c10_extract_video_id :
    (∀ s tok : PyStr, reSearch s = some tok →
        extract_video_id s = tok ∧ tok.length = 11 ∧ ∀ c ∈ tok, isTokenChar c) ∧
    (∀ s : PyStr, reSearch s = none → extract_video_id s = s) ∧
    (∀ s : PyStr, extract_video_id (extract_video_id s) = extract_video_id s) := by
  have hnone : ∀ s : PyStr, reSearch s = none → extract_video_id s = s := by
    intro s h
    rw [extract_video_id, h]
  have hsome : ∀ s tok : PyStr, reSearch s = some tok → extract_video_id s = tok := by
    intro s tok h
    rw [extract_video_id, h]
  refine ⟨fun s tok h => ⟨hsome s tok h, reSearch_token h⟩, hnone, ?_⟩
  intro s
  cases hr : reSearch s with
  | none =>
    have h1 := hnone s hr
    rw [h1, h1]
  | some tok =>
    rw [hsome s tok hr]
    obtain ⟨-, htok⟩ := reSearch_token hr
    exact hnone tok (reSearch_none fun c hc => isTokenChar_ne (htok c hc))

/-- Witness for C10: extraction from a concrete short-URL. -/
theorem c10_extract_video_id_witness :
    reSearch "https://youtu.be/dQw4w9WgXcQ".data = some "dQw4w9WgXcQ".data ∧
    (extract_video_id "https://youtu.be/dQw4w9WgXcQ".data = "dQw4w9WgXcQ".data ∧
      ("dQw4w9WgXcQ".data : PyStr).length = 11 ∧
      ∀ c ∈ ("dQw4w9WgXcQ".data : PyStr), isTokenChar c) :=
  ⟨by decide, c10_extract_video_id.1 _ _ (by decide)⟩

/-! ### Fallback subtitle-URL selection (C4) -/

theorem urlCheck_ok {o : Option PyStr} {u : PyStr} (h : urlCheck o = .ok u) :
    o = some u ∧ u ≠ [] := by
  match o with
  | none => simp [urlCheck] at h
  | some [] => simp [urlCheck] at h
  | some (c :: cs) =>
    rw [show urlCheck (some (c :: cs)) = .ok (c :: cs) from rfl] at h
    cases h
    exact ⟨rfl, List.cons_ne_nil c cs⟩

theorem resolveEntry_ok_ne {e : SubEntry} {u : PyStr}
    (h : resolveEntry e = .ok u) : u ≠ [] := by
  match e with
  | .dict url => exact (urlCheck_ok h).2
  | .formats [] => simp [resolveEntry] at h
  | .formats (f :: fs) => exact (urlCheck_ok h).2

/-- Claim C4 counterexample: with `requested_subtitles` non-empty but lacking
every preferred language (`{"fr": …}`) and `automatic_captions` holding an
`es` entry with a URL, the code resolves no URL at all (the `or`-chain
commits to the first non-empty mapping), contradicting the claim that the
`es` entry of the later mapping is selected. -/
theorem c4_counterexample :
    resolveVtt
      ⟨some [("fr".data, SubEntry.dict (some "u1".data))],
       some [("es".data, SubEntry.dict (some "u2".data))], none⟩
      ["es".data, "en".data] = VttResult.noSubtitles ∧
    lookupLang [("es".data, SubEntry.dict (some "u2".data))] "es".data =
      some (SubEntry.dict (some "u2".data)) ∧
    VttResult.noSubtitles ≠ VttResult.ok "u2".data :=
  ⟨by decide, by decide, by decide⟩

/-- Claim C4 (amended): the selection commits to the first non-empty mapping
among requested subtitles, automatic captions, manual subtitles — when the
requested mapping is non-empty the later mappings are never consulted —
and within the committed mapping it resolves the first preferred language
present, scanning the preference list in order; when no preferred language
is present (or no URL resolves) the result is the no-subtitles failure; a
successful URL always comes from some preferred language's entry (an
unrequested language is never picked), and a list-shaped entry contributes
its first element. -/
theorem c4_fallback_selection :
    (∀ (d : SubsDict) (auto man : Option SubsDict) (langs : List PyStr),
        d ≠ [] →
        resolveVtt ⟨some d, auto, man⟩ langs = findVttUrl d langs) ∧
    (∀ (subs : SubsDict) (langs : List PyStr),
        (∀ l ∈ langs, lookupLang subs l = none) →
        findVttUrl subs langs = .noSubtitles) ∧
    (∀ (subs : SubsDict) (langs : List PyStr) (u : PyStr),
        findVttUrl subs langs = .ok u →
        ∃ pre lang post, langs = pre ++ lang :: post ∧
          (∀ l ∈ pre, lookupLang subs l = none) ∧
          ∃ e, lookupLang subs lang = some e ∧ resolveEntry e = .ok u ∧ u ≠ []) ∧
    (∀ (f : Option PyStr) (rest : List (Option PyStr)),
        resolveEntry (.formats (f :: rest)) = urlCheck f) ∧
    urlCheck none = .noSubtitles ∧ urlCheck (some []) = .noSubtitles := by
  refine ⟨?_, ?_, ?_, fun f rest => rfl, rfl, rfl⟩
  · intro d auto man langs hd
    rw [resolveVtt, selectSubsDict]
    simp only [orDict, if_neg hd]
  · intro subs langs h
    induction langs with
    | nil => rfl
    | cons l rest ih =>
      have hl : lookupLang subs l = none := h l (List.mem_cons_self l rest)
      rw [findVttUrl, hl]
      exact ih fun x hx => h x (List.mem_cons_of_mem l hx)
  · intro subs langs u h
    induction langs with
    | nil => simp [findVttUrl] at h
    | cons l rest ih =>
      rw [findVttUrl] at h
      cases hl : lookupLang subs l with
      | some e =>
        rw [hl] at h
        exact ⟨[], l, rest, rfl, by simp, e, hl, h, resolveEntry_ok_ne h⟩
      | none =>
        rw [hl] at h
        obtain ⟨pre, lang, post, heq, hpre, e, he, hres, hne⟩ := ih h
        refine ⟨l :: pre, lang, post, by rw [heq]; rfl, ?_, e, he, hres, hne⟩
        intro x hx
        rcases List.mem_cons.mp hx with rfl | hx'
        · exact hl
        · exact hpre x hx'

/-- Witness for C4: a non-empty requested mapping makes the selection run
entirely inside it. -/
theorem c4_fallback_selection_witness :
    ([("es".data, SubEntry.dict (some "u".data))] : SubsDict) ≠ [] ∧
    resolveVtt ⟨some [("es".data, SubEntry.dict (some "u".data))], none, none⟩
        ["es".data] =
      findVttUrl [("es".data, SubEntry.dict (some "u".data))] ["es".data] :=
  ⟨by decide, c4_fallback_selection.1
    [("es".data, SubEntry.dict (some "u".data))] none none ["es".data] (by decide)⟩

/-! ### Partition and ordering of the chunking loop (C2) -/

theorem collapseRun_start (cs : List Cue) : ∀ c : Cue, (collapseRun c cs).start = c.start := by
  induction cs with
  | nil => intro c; rfl
  | cons x xs ih =>
    intro c
    have h := ih (mergeStep c x)
    simpa [collapseRun, mergeStep] using h

theorem collapseRun_append_one (c : Cue) (cs : List Cue) (seg : Cue) :
    collapseRun c (cs ++ [seg]) = mergeStep (collapseRun c cs) seg := by
  simp [collapseRun, List.foldl_append]

theorem mergeLoop_eq_runsLoop (ms mc : ℤ) :
    ∀ (rest : List Cue) (first : Cue) (acc : List Cue),
      mergeLoop ms mc (collapseRun first acc) rest =
        (runsLoop ms mc first acc rest).map fun r => collapseRun r.1 r.2 := by
  intro rest
  induction rest with
  | nil => intro first acc; rfl
  | cons seg rest ih =>
    intro first acc
    rw [mergeLoop, runsLoop]
    by_cases h : splitCond ms mc (collapseRun first acc) seg
    · rw [if_pos h, if_pos h, List.map_cons]
      have h2 := ih seg []
      rw [show collapseRun seg [] = seg from rfl] at h2
      rw [h2]
    · rw [if_neg h, if_neg h, ← collapseRun_append_one, ih]

theorem runsLoop_flatten (ms mc : ℤ) :
    ∀ (rest : List Cue) (first : Cue) (acc : List Cue),
      ((runsLoop ms mc first acc rest).flatMap fun r => r.1 :: r.2) =
        first :: (acc ++ rest) := by
  intro rest
  induction rest with
  | nil => intro first acc; simp [runsLoop]
  | cons seg rest ih =>
    intro first acc
    rw [runsLoop]
    by_cases h : splitCond ms mc (collapseRun first acc) seg
    · rw [if_pos h]
      simp [ih seg []]
    · rw [if_neg h, ih]
      simp

theorem mergeLoop_head_start (ms mc : ℤ) :
    ∀ (rest : List Cue) (curr : Cue),
      ∃ d t, mergeLoop ms mc curr rest = d :: t ∧ d.start = curr.start := by
  intro rest
  induction rest with
  | nil => intro curr; exact ⟨curr, [], rfl, rfl⟩
  | cons seg rest ih =>
    intro curr
    rw [mergeLoop]
    by_cases h : splitCond ms mc curr seg
    · rw [if_pos h]
      exact ⟨curr, _, rfl, rfl⟩
    · rw [if_neg h]
      obtain ⟨d, t, heq, hst⟩ := ih (mergeStep curr seg)
      exact ⟨d, t, heq, hst.trans rfl⟩

theorem mergeLoop_chain (ms mc : ℤ) :
    ∀ (rest : List Cue) (curr : Cue),
      curr.start ≤ curr.«end» → (∀ c ∈ rest, c.start ≤ c.«end») →
      List.Chain' (fun a b : Cue => a.«end» ≤ b.start) (curr :: rest) →
      (∀ ch ∈ mergeLoop ms mc curr rest, ch.start ≤ ch.«end») ∧
      List.Chain' (fun a b : Cue => a.«end» ≤ b.start) (mergeLoop ms mc curr rest) := by
  intro rest
  induction rest with
  | nil =>
    intro curr h1 _ _
    exact ⟨by simpa [mergeLoop] using h1, by simp [mergeLoop]⟩
  | cons seg rest ih =>
    intro curr h1 h2 hchain
    have hcs : curr.«end» ≤ seg.start := (List.chain'_cons.mp hchain).1
    have htail := (List.chain'_cons.mp hchain).2
    have hseg : seg.start ≤ seg.«end» := h2 seg (List.mem_cons_self seg rest)
    rw [mergeLoop]
    by_cases h : splitCond ms mc curr seg
    · rw [if_pos h]
      obtain ⟨hall, hch⟩ :=
        ih seg hseg (fun c hc => h2 c (List.mem_cons_of_mem seg hc)) htail
      obtain ⟨d, t, heq, hst⟩ := mergeLoop_head_start ms mc rest seg
      constructor
      · intro ch hm
        rcases List.mem_cons.mp hm with rfl | hm'
        · exact h1
        · exact hall ch hm'
      · rw [heq] at hch ⊢
        exact List.chain'_cons.mpr ⟨by rw [hst]; exact hcs, hch⟩
    · rw [if_neg h]
      have hm1 : (mergeStep curr seg).start ≤ (mergeStep curr seg).«end» := by
        show curr.start ≤ seg.«end»
        exact le_trans h1 (le_trans hcs hseg)
      have hchain' :
          List.Chain' (fun a b : Cue => a.«end» ≤ b.start) (mergeStep curr seg :: rest) := by
        cases rest with
        | nil => simp
        | cons r rs =>
          refine List.chain'_cons.mpr ⟨?_, (List.chain'_cons.mp htail).2⟩
          show seg.«end» ≤ r.start
          exact (List.chain'_cons.mp htail).1
      exact ih (mergeStep curr seg) hm1
        (fun c hc => h2 c (List.mem_cons_of_mem seg hc)) hchain'

/-- Claim C2 counterexample: two cues with `end > start`, ordered by
ascending start, whose time ranges overlap each other; a length-forced
split then yields two chunks whose timestamp ranges overlap, so the claim
fails with only the hypotheses it states. -/
theorem c2_counterexample :
    (∀ c ∈ [Cue.mk 0 100 (List.replicate 300 'a'),
            Cue.mk 1 2 (List.replicate 300 'b')], c.start < c.«end») ∧
    List.Chain' (fun a b : Cue => a.start ≤ b.start)
      [Cue.mk 0 100 (List.replicate 300 'a'), Cue.mk 1 2 (List.replicate 300 'b')] ∧
    ¬ (mergeCues 30 500
        [Cue.mk 0 100 (List.replicate 300 'a'),
         Cue.mk 1 2 (List.replicate 300 'b')]).Chain'
        (fun a b : Cue => a.«end» ≤ b.start) := by
  refine ⟨by decide, by rw [List.chain'_pair]; decide, ?_⟩
  rw [mergeCues, mergeLoop_cons_split _ (by norm_num [splitCond]), mergeLoop_nil,
    List.chain'_pair]
  decide

/-- Claim C2 (amended): when the input cues additionally do not overlap each
other (each cue ends no later than the next starts — which the claim's
hypotheses alone do not guarantee), the chunking loop partitions the input
into consecutive runs: flattening the runs gives back the input exactly
(no cue dropped, duplicated, or reordered), each chunk is the collapse of
its run, the chunks' timestamp ranges are ordered and pairwise
non-overlapping, and `parse_segments` renders exactly these chunks. -/
theorem c2_partition (ms mc : ℤ) (raw : List Cue)
    (h1 : ∀ c ∈ raw, c.start < c.«end»)
    (h2 : raw.Chain' fun a b => a.«end» ≤ b.start) :
    ((cueRuns ms mc raw).flatMap fun r => r.1 :: r.2) = raw ∧
    mergeCues ms mc raw = ((cueRuns ms mc raw).map fun r => collapseRun r.1 r.2) ∧
    ((mergeCues ms mc raw).Chain' fun a b => a.«end» ≤ b.start) ∧
    (∀ ch ∈ mergeCues ms mc raw, ch.start ≤ ch.«end») ∧
    parse_segments raw ms mc = (mergeCues ms mc raw).map renderChunk := by
  cases raw with
  | nil => exact ⟨rfl, rfl, by simp [mergeCues, cueRuns], by simp [mergeCues, cueRuns], rfl⟩
  | cons c rest =>
    have hflat := runsLoop_flatten ms mc rest c []
    have heq := mergeLoop_eq_runsLoop ms mc rest c []
    rw [show collapseRun c [] = c from rfl] at heq
    have hc : c.start ≤ c.«end» := le_of_lt (h1 c (List.mem_cons_self c rest))
    have hrest : ∀ x ∈ rest, x.start ≤ x.«end» := fun x hx =>
      le_of_lt (h1 x (List.mem_cons_of_mem c hx))
    obtain ⟨hall, hch⟩ := mergeLoop_chain ms mc rest c hc hrest h2
    exact ⟨by simpa [cueRuns] using hflat, by simpa [mergeCues, cueRuns] using heq,
      by simpa [mergeCues] using hch, by simpa [mergeCues] using hall, rfl⟩

/-- Witness for C2: the partition statement at a concrete two-cue input. -/
theorem c2_partition_witness :
    (∀ c ∈ [Cue.mk 0 5 "Hola".data, Cue.mk 5 9 "mundo".data], c.start < c.«end») ∧
    List.Chain' (fun a b : Cue => a.«end» ≤ b.start)
      [Cue.mk 0 5 "Hola".data, Cue.mk 5 9 "mundo".data] ∧
    (((cueRuns 30 500 [Cue.mk 0 5 "Hola".data, Cue.mk 5 9 "mundo".data]).flatMap
        fun r => r.1 :: r.2) = [Cue.mk 0 5 "Hola".data, Cue.mk 5 9 "mundo".data] ∧
      mergeCues 30 500 [Cue.mk 0 5 "Hola".data, Cue.mk 5 9 "mundo".data] =
        ((cueRuns 30 500 [Cue.mk 0 5 "Hola".data, Cue.mk 5 9 "mundo".data]).map
          fun r => collapseRun r.1 r.2) ∧
      ((mergeCues 30 500 [Cue.mk 0 5 "Hola".data, Cue.mk 5 9 "mundo".data]).Chain'
        fun a b => a.«end» ≤ b.start) ∧
      (∀ ch ∈ mergeCues 30 500 [Cue.mk 0 5 "Hola".data, Cue.mk 5 9 "mundo".data],
        ch.start ≤ ch.«end») ∧
      parse_segments [Cue.mk 0 5 "Hola".data, Cue.mk 5 9 "mundo".data] 30 500 =
        (mergeCues 30 500 [Cue.mk 0 5 "Hola".data, Cue.mk 5 9 "mundo".data]).map
          renderChunk) :=
  ⟨by decide, by simp [List.chain'_pair],
    c2_partition 30 500 [Cue.mk 0 5 "Hola".data, Cue.mk 5 9 "mundo".data]
      (by decide) (by simp [List.chain'_pair])⟩

/-! ### Prompt building (C8) -/

theorem pyStrip_wrap {a b : Char} (ha : pyIsSpace a = false) (hb : pyIsSpace b = false)
    (mid : List Char) :
    pyStrip ('\n' :: a :: (mid ++ [b, '\n'])) = a :: (mid ++ [b]) := by
  rw [pyStrip, List.dropWhile_cons, if_pos (by decide), List.dropWhile_cons,
    if_neg (by simp [ha])]
  rw [show (a :: (mid ++ [b, '\n'])).reverse = '\n' :: b :: (mid.reverse ++ [a]) from by simp]
  rw [List.dropWhile_cons, if_pos (by decide), List.dropWhile_cons, if_neg (by simp [hb])]
  rw [show (b :: (mid.reverse ++ [a])).reverse = a :: (mid ++ [b]) from by simp]

theorem intercalate_cons_two (sep x y : PyStr) (l : List PyStr) :
    List.intercalate sep (x :: y :: l) = x ++ sep ++ List.intercalate sep (y :: l) := by
  rw [List.intercalate, List.intercalate,
    show List.intersperse sep (x :: y :: l) = x :: sep :: List.intersperse sep (y :: l)
      from rfl,
    List.flatten_cons, List.flatten_cons]
  simp [List.append_assoc]

theorem infix_lines (x : PyStr) :
    ∀ L : List PyStr, x ∈ L → ∀ A B : PyStr,
      ('\n' :: x ++ ['\n']) <:+:
        (A ++ ['\n']) ++ List.intercalate ['\n'] L ++ ('\n' :: B) := by
  intro L
  induction L with
  | nil => intro h; exact absurd h (List.not_mem_nil x)
  | cons y L ih =>
    intro hmem A B
    rcases List.mem_cons.mp hmem with rfl | hx
    · cases L with
      | nil =>
        refine ⟨A, B, ?_⟩
        simp [List.intercalate, List.append_assoc]
      | cons z L' =>
        refine ⟨A, List.intercalate ['\n'] (z :: L') ++ ('\n' :: B), ?_⟩
        rw [intercalate_cons_two]
        simp [List.append_assoc]
    · cases L with
      | nil => exact absurd hx (List.not_mem_nil x)
      | cons z L' =>
        have h := ih hx (A ++ '\n' :: y) B
        rw [intercalate_cons_two]
        simpa [List.append_assoc] using h

set_option maxRecDepth 100000 in
theorem build_qa_prompt_eq (chunks : List ChunkOut) (question : PyStr) :
    build_qa_prompt chunks question =
      qaHeader ++ qaLines chunks ++ qaMiddle ++ question ++ "\n\nRespuesta:".data := by
  have h1 : qaHeader = 'V' ::
      ("as a recibir la transcripción segmentada de un vídeo de YouTube, " ++
       "en bloques de texto con su intervalo de tiempo:\n").data := by decide
  have h2 : qaFooter = "\n\nRespuesta".data ++ [':', '\n'] := by decide
  have h4 : ("\n\nRespuesta".data : PyStr) ++ [':'] = "\n\nRespuesta:".data := by decide
  rw [build_qa_prompt]
  rw [show ('\n' :: qaHeader) ++ qaLines chunks ++ qaMiddle ++ question ++ qaFooter =
      '\n' :: 'V' ::
        ((("as a recibir la transcripción segmentada de un vídeo de YouTube, " ++
           "en bloques de texto con su intervalo de tiempo:\n").data ++
          qaLines chunks ++ qaMiddle ++ question ++ "\n\nRespuesta".data) ++
         [':', '\n']) from by rw [h1, h2]; simp [List.append_assoc]]
  rw [pyStrip_wrap (by decide) (by decide)]
  rw [h1]
  simp [List.append_assoc, h4]

set_option maxRecDepth 100000 in
/-- Claim C8: `build_qa_prompt` is pure and, for every chunk list (empty
included) and every question, returns a non-empty string that contains each
chunk's timestamp-range-and-text line delimited by newlines on both sides,
and contains the question verbatim as a substring. -/
theorem c8_build_qa_prompt (chunks : List ChunkOut) (question : PyStr) :
    build_qa_prompt chunks question ≠ [] ∧
    (∀ c ∈ chunks,
      ('\n' :: (c.ts_range ++ ' ' :: c.text) ++ ['\n']) <:+:
        build_qa_prompt chunks question) ∧
    question <:+: build_qa_prompt chunks question := by
  have hA : qaHeader =
      ("Vas a recibir la transcripción segmentada de un vídeo de YouTube, " ++
       "en bloques de texto con su intervalo de tiempo:").data ++ ['\n'] := by decide
  have hM : qaMiddle = '\n' ::
      ("\nA continuación, un usuario hará una pregunta concreta sobre el " ++
       "contenido del vídeo.\nTu tarea es:\n" ++
       "  • Leer los bloques con sus timestamps.\n" ++
       "  • Identificar las partes relevantes.\n" ++
       "  • Responder con claridad, precisión y de forma simple, citando los " ++
       "timestamps cuando aporte valor.\n" ++
       "  • En caso de citar un timestamp hazlo refiriéndote al minuto y " ++
       "segundo por ejemplo \"en el minuto 7 segundo 24 se menciona que..\".\n" ++
       "Pregunta del usuario:\n").data := by decide
  refine ⟨?_, ?_, ?_⟩
  · rw [build_qa_prompt_eq, hA]
    simp
  · intro c hc
    rw [build_qa_prompt_eq, hA, hM]
    have h := infix_lines (c.ts_range ++ ' ' :: c.text)
      (chunks.map fun c => c.ts_range ++ ' ' :: c.text)
      (List.mem_map_of_mem _ hc)
      ("Vas a recibir la transcripción segmentada de un vídeo de YouTube, " ++
       "en bloques de texto con su intervalo de tiempo:").data
      (("\nA continuación, un usuario hará una pregunta concreta sobre el " ++
        "contenido del vídeo.\nTu tarea es:\n" ++
        "  • Leer los bloques con sus timestamps.\n" ++
        "  • Identificar las partes relevantes.\n" ++
        "  • Responder con claridad, precisión y de forma simple, citando los " ++
        "timestamps cuando aporte valor.\n" ++
        "  • En caso de citar un timestamp hazlo refiriéndote al minuto y " ++
        "segundo por ejemplo \"en el minuto 7 segundo 24 se menciona que..\".\n" ++
        "Pregunta del usuario:\n").data ++ question ++ "\n\nRespuesta:".data)
    simpa [qaLines, List.append_assoc] using h
  · rw [build_qa_prompt_eq]
    exact ⟨qaHeader ++ qaLines chunks ++ qaMiddle, "\n\nRespuesta:".data,
      by simp [List.append_assoc]⟩

set_option maxRecDepth 100000 in
/-- Witness for C8: the prompt properties at a concrete one-chunk input. -/
theorem c8_build_qa_prompt_witness :
    build_qa_prompt [ChunkOut.mk "[00:00:00.000–00:00:09.000]".data "Hola mundo".data]
        "¿De qué trata el vídeo?".data ≠ [] ∧
    (∀ c ∈ [ChunkOut.mk "[00:00:00.000–00:00:09.000]".data "Hola mundo".data],
      ('\n' :: (c.ts_range ++ ' ' :: c.text) ++ ['\n']) <:+:
        build_qa_prompt [ChunkOut.mk "[00:00:00.000–00:00:09.000]".data "Hola mundo".data]
          "¿De qué trata el vídeo?".data) ∧
    "¿De qué trata el vídeo?".data <:+:
      build_qa_prompt [ChunkOut.mk "[00:00:00.000–00:00:09.000]".data "Hola mundo".data]
        "¿De qué trata el vídeo?".data :=
  c8_build_qa_prompt
    [ChunkOut.mk "[00:00:00.000–00:00:09.000]".data "Hola mundo".data]
    "¿De qué trata el vídeo?".data

/-! ### Heap-level frame property (C9) -/

theorem segLoopH_nil (ms mc : ℤ) (heap : Heap) (chunks : List ℕ) (curr : Option ℕ) :
    segLoopH ms mc [] heap chunks curr = (heap, chunks, curr) := rfl

theorem segLoopH_cons_none (ms mc : ℤ) (i : ℕ) (rest : List ℕ) (heap : Heap)
    (chunks : List ℕ) :
    segLoopH ms mc (i :: rest) heap chunks none =
      segLoopH ms mc rest (heap ++ [readCell heap i]) chunks (some heap.length) := rfl

theorem segLoopH_cons_split {ms mc : ℤ} {i j : ℕ} {heap : Heap} (rest : List ℕ)
    (chunks : List ℕ) (h : splitCond ms mc (readCell heap j) (readCell heap i)) :
    segLoopH ms mc (i :: rest) heap chunks (some j) =
      segLoopH ms mc rest (heap ++ [readCell heap i]) (chunks ++ [j])
        (some heap.length) := by
  rw [segLoopH, if_pos h]

theorem segLoopH_cons_merge {ms mc : ℤ} {i j : ℕ} {heap : Heap} (rest : List ℕ)
    (chunks : List ℕ) (h : ¬ splitCond ms mc (readCell heap j) (readCell heap i)) :
    segLoopH ms mc (i :: rest) heap chunks (some j) =
      segLoopH ms mc rest (heap.set j (mergeStep (readCell heap j) (readCell heap i)))
        chunks (some j) := by
  rw [segLoopH, if_neg h]

theorem take_set_of_le {α : Type} (a : α) :
    ∀ (l : List α) (j n : ℕ), n ≤ j → (l.set j a).take n = l.take n := by
  intro l
  induction l with
  | nil => intro j n _; rfl
  | cons x xs ih =>
    intro j n h
    cases j with
    | zero =>
      cases Nat.le_zero.mp h
      rfl
    | succ j =>
      cases n with
      | zero => rfl
      | succ n =>
        rw [List.set_cons_succ, List.take_succ_cons, List.take_succ_cons,
          ih j n (Nat.le_of_succ_le_succ h)]

theorem readCell_append_left {heap : Heap} {i : ℕ} (l : Heap) (hi : i < heap.length) :
    readCell (heap ++ l) i = readCell heap i := by
  rw [readCell, readCell, List.getD_append _ _ _ _ hi]

theorem readCell_append_self (heap : Heap) (c : Cue) :
    readCell (heap ++ [c]) heap.length = c := by
  rw [readCell, List.getD_append_right _ _ _ _ (le_refl _)]
  simp

theorem readCell_set_self {heap : Heap} {j : ℕ} (c : Cue) (hj : j < heap.length) :
    readCell (heap.set j c) j = c := by
  rw [readCell, List.getD_eq_getElem _ _ (by simpa using hj)]
  simp

theorem readCell_set_ne {heap : Heap} {j a : ℕ} (c : Cue) (hne : j ≠ a) :
    readCell (heap.set j c) a = readCell heap a := by
  rw [readCell, readCell, List.getD_eq_getElem?_getD, List.getD_eq_getElem?_getD,
    List.getElem?_set_ne hne]

theorem readCell_take {heap : Heap} {n i : ℕ} (h : i < n) :
    readCell (heap.take n) i = readCell heap i := by
  rw [readCell, readCell, List.getD_eq_getElem?_getD, List.getD_eq_getElem?_getD,
    List.getElem?_take_of_lt h]

theorem range_map_readCell : ∀ l : List Cue, (List.range l.length).map (readCell l) = l := by
  intro l
  induction l with
  | nil => rfl
  | cons x xs ih =>
    rw [show (x :: xs).length = xs.length + 1 from rfl, List.range_succ_eq_map,
      List.map_cons, List.map_map]
    have h : ∀ k ∈ List.range xs.length, (readCell (x :: xs) ∘ Nat.succ) k = readCell xs k :=
      fun k _ => rfl
    rw [List.map_congr_left h, ih]
    rfl

theorem segLoopH_spec (ms mc : ℤ) (n : ℕ) (base : List Cue) :
    ∀ (idxs : List ℕ) (heap : Heap) (chunks : List ℕ) (j : ℕ),
      heap.take n = base → (∀ i ∈ idxs, i < n) → (∀ a ∈ chunks, a < j) →
      n ≤ j → j < heap.length →
      (segLoopH ms mc idxs heap chunks (some j)).1.take n = base ∧
      heapChunks (segLoopH ms mc idxs heap chunks (some j)) =
        chunks.map (readCell heap) ++
          mergeLoop ms mc (readCell heap j) (idxs.map (readCell base)) := by
  intro idxs
  induction idxs with
  | nil =>
    intro heap chunks j ht _ _ _ _
    refine ⟨ht, ?_⟩
    simp [segLoopH_nil, heapChunks, mergeLoop, List.map_append]
  | cons i rest ih =>
    intro heap chunks j ht hidx hchunks hnj hjlen
    have hin : i < n := hidx i (List.mem_cons_self i rest)
    have hrest : ∀ x ∈ rest, x < n := fun x hx => hidx x (List.mem_cons_of_mem i hx)
    have hnheap : n ≤ heap.length := le_trans hnj (le_of_lt hjlen)
    have hread : readCell base i = readCell heap i := by
      rw [← ht, readCell_take hin]
    have hmap : (i :: rest).map (readCell base) =
        readCell heap i :: rest.map (readCell base) := by
      rw [List.map_cons, hread]
    rw [hmap]
    by_cases hsp : splitCond ms mc (readCell heap j) (readCell heap i)
    · rw [segLoopH_cons_split rest chunks hsp, mergeLoop_cons_split _ hsp]
      have h1 : (heap ++ [readCell heap i]).take n = base := by
        rw [List.take_append_of_le_length hnheap]
        exact ht
      have hc : ∀ a ∈ chunks ++ [j], a < heap.length := by
        intro a ha
        rcases List.mem_append.mp ha with ha' | ha'
        · exact lt_trans (hchunks a ha') hjlen
        · rw [List.mem_singleton.mp ha']
          exact hjlen
      obtain ⟨ha, hb⟩ := ih (heap ++ [readCell heap i]) (chunks ++ [j]) heap.length
        h1 hrest hc hnheap (by simp)
      refine ⟨ha, ?_⟩
      rw [hb, readCell_append_self]
      have e2 : (chunks ++ [j]).map (readCell (heap ++ [readCell heap i])) =
          (chunks ++ [j]).map (readCell heap) :=
        List.map_congr_left fun a ha => readCell_append_left _ (hc a ha)
      rw [e2]
      simp [List.map_append, List.append_assoc]
    · rw [segLoopH_cons_merge rest chunks hsp, mergeLoop_cons_merge _ hsp]
      have h1 : (heap.set j (mergeStep (readCell heap j) (readCell heap i))).take n
          = base := by
        rw [take_set_of_le _ _ _ _ hnj]
        exact ht
      obtain ⟨ha, hb⟩ := ih (heap.set j (mergeStep (readCell heap j) (readCell heap i)))
        chunks j h1 hrest hchunks hnj (by simpa using hjlen)
      refine ⟨ha, ?_⟩
      rw [hb, readCell_set_self _ hjlen]
      have e2 : chunks.map (readCell (heap.set j
          (mergeStep (readCell heap j) (readCell heap i)))) =
          chunks.map (readCell heap) :=
        List.map_congr_left fun a ha =>
          readCell_set_ne _ (Ne.symm (ne_of_lt (hchunks a ha)))
      rw [e2]

/-- Claim C9: `parse_segments` does not mutate its input: running the loop
with the cue dictionaries held behind references (the accumulator being a
fresh copy of a cue, merges writing through the accumulator's reference
only), the input cells of the final heap are unchanged, while the chunk
values read back through the collected references are exactly the chunks
of the functional `mergeCues`. -/
theorem c9_no_mutation (ms mc : ℤ) (input : List Cue) :
    (parse_segments_heap ms mc input).1.take input.length = input ∧
    heapChunks (parse_segments_heap ms mc input) = mergeCues ms mc input := by
  cases input with
  | nil => exact ⟨rfl, rfl⟩
  | cons c0 t =>
    rw [parse_segments_heap, show (c0 :: t).length = t.length + 1 from rfl,
      List.range_succ_eq_map, segLoopH_cons_none,
      show readCell (c0 :: t) 0 = c0 from rfl]
    have hspec := segLoopH_spec ms mc (t.length + 1) (c0 :: t)
      ((List.range t.length).map Nat.succ) ((c0 :: t) ++ [c0]) [] (c0 :: t).length
      (List.take_left' rfl)
      (by
        intro x hx
        obtain ⟨k, hk, rfl⟩ := List.mem_map.mp hx
        exact Nat.succ_lt_succ (List.mem_range.mp hk))
      (by simp) (le_refl _) (by simp)
    obtain ⟨ha, hb⟩ := hspec
    refine ⟨ha, ?_⟩
    rw [hb, readCell_append_self]
    have hmap : ((List.range t.length).map Nat.succ).map (readCell (c0 :: t)) = t := by
      rw [List.map_map]
      have h : ∀ k ∈ List.range t.length,
          (readCell (c0 :: t) ∘ Nat.succ) k = readCell t k := fun k _ => rfl
      rw [List.map_congr_left h, range_map_readCell t]
    rw [hmap]
    rfl

end ExtractorVideos
